import Mathlib

/-!
Verification of the nanobot message-driven agent runtime.

The core implementations of the runtime (message bus, session manager, memory
store, tool registry, file tools) are loaded from a compiled extension and
are not present as Python sources in this repository; only their package
re-exports and test suites are.  Each component is therefore modelled here
from the words of the specification, and the theorems below settle the claims of the spec against those models.
-/

namespace Nanobot

/-! ### Messages -/

/-- Modelled from the spec: `InboundMessage` record (spec section 3).  The
message types of the runtime live in the compiled `nanobot_rust` extension /
`bus._events_py` fallback, absent from the source tree.  Timestamps are
modelled as naturals (seconds since epoch); metadata as an association
list. -/
structure InboundMessage where
  channel : String
  sender_id : String
  chat_id : String
  content : String
  timestamp : Nat := 0
  media : List String := []
  metadata : List (String × String) := []
deriving Repr, DecidableEq

/-- Derived attribute `session_key = "{channel}:{chat_id}"` (spec section 3). -/
def InboundMessage.session_key (m : InboundMessage) : String :=
  m.channel ++ ":" ++ m.chat_id

/-- Modelled from the spec: `OutboundMessage` record (spec section 3) with
optional `reply_to` defaulting to null. -/
structure OutboundMessage where
  channel : String
  chat_id : String
  content : String
  reply_to : Option String := none
  media : List String := []
  metadata : List (String × String) := []
deriving Repr, DecidableEq

/-! ### Message bus -/

/-- Modelled from the spec: the `MessageBus` holds two independent FIFO
queues (spec section 4.2).  The queue front is the list head; publishing
appends at the back. -/
structure MessageBus where
  inbound : List InboundMessage := []
  outbound : List OutboundMessage := []
deriving Repr, DecidableEq

/-- A freshly constructed bus: both queues empty. -/
def MessageBus.empty : MessageBus := {}

/-- Modelled from the spec: `publish_inbound` enqueues at the back of the
inbound queue. -/
def MessageBus.publish_inbound (b : MessageBus) (m : InboundMessage) : MessageBus :=
  { b with inbound := b.inbound ++ [m] }

/-- Modelled from the spec: `consume_inbound` dequeues the front of the
inbound queue; `none` models the call blocking on an empty queue. -/
def MessageBus.consume_inbound (b : MessageBus) :
    Option (InboundMessage × MessageBus) :=
  match b.inbound with
  | [] => none
  | m :: rest => some (m, { b with inbound := rest })

/-- Best-effort size snapshot of the inbound queue. -/
def MessageBus.inbound_size (b : MessageBus) : Nat := b.inbound.length

/-- Best-effort size snapshot of the outbound queue. -/
def MessageBus.outbound_size (b : MessageBus) : Nat := b.outbound.length

/-- Publish a whole sequence of messages, in order, from a single producer. -/
def MessageBus.publishAll (b : MessageBus) (msgs : List InboundMessage) : MessageBus :=
  msgs.foldl MessageBus.publish_inbound b

/-- Consume `n` messages, collecting them in arrival order; stops early if
the queue empties. -/
def MessageBus.consumeAll : Nat → MessageBus → List InboundMessage × MessageBus
  | 0, b => ([], b)
  | n + 1, b =>
    match b.consume_inbound with
    | none => ([], b)
    | some (m, b') =>
      let (ms, b'') := MessageBus.consumeAll n b'
      (m :: ms, b'')

theorem MessageBus.inbound_publishAll (b : MessageBus) (msgs : List InboundMessage) :
    (b.publishAll msgs).inbound = b.inbound ++ msgs := by
  induction msgs generalizing b with
  | nil => simp [publishAll]
  | cons m rest ih =>
    show ((b.publish_inbound m).publishAll rest).inbound = b.inbound ++ m :: rest
    rw [ih]
    simp [publish_inbound]

theorem MessageBus.consumeAll_of_inbound (b : MessageBus) (msgs : List InboundMessage)
    (h : b.inbound = msgs) :
    b.consumeAll msgs.length = (msgs, { b with inbound := [] }) := by
  induction msgs generalizing b with
  | nil => simp [consumeAll]; exact h.symm ▸ rfl
  | cons m rest ih =>
    simp only [List.length_cons, consumeAll, consume_inbound, h]
    rw [ih { b with inbound := rest } rfl]

/-! ### Sessions -/

/-- A chat turn is a record of string keys to values; modelled as an
association list so that producer-supplied extra keys can be carried and
stripped (spec section 3). -/
abbrev ChatTurn := List (String × String)

/-- The model-contract keys that `get_history` may return (spec sections
4.3 and 8, property 3). -/
def modelContractKeys : List String :=
  ["role", "content", "tool_call_id", "name", "tool_calls"]

/-- Projection of a stored turn to the model-contract shape: every key
outside `modelContractKeys` is stripped. -/
def projectTurn (t : ChatTurn) : ChatTurn :=
  t.filter (fun kv => decide (kv.1 ∈ modelContractKeys))

/-- Modelled from the spec: `Session` record (spec section 3).  The session
implementation (`debot.session._manager_py` / compiled extension) is absent
from the source tree.  Times are naturals; `updated_at ≥ created_at`. -/
structure Session where
  key : String
  messages : List ChatTurn := []
  created_at : Nat := 0
  updated_at : Nat := 0
  metadata : List (String × String) := []
deriving Repr, DecidableEq

/-- Modelled from the spec: `add_message` appends
`{role, content, timestamp: now, **extra}` and advances `updated_at`
(spec section 4.3). -/
def Session.add_message (s : Session) (role content : String)
    (extra : List (String × String)) (now : Nat) : Session :=
  { s with
    messages := s.messages
      ++ [[("role", role), ("content", content), ("timestamp", Nat.repr now)] ++ extra],
    updated_at := now }

/-- Modelled from the spec: `get_history(max_messages)` keeps the last
`max_messages` turns in order and projects each turn onto the
model-contract keys (spec section 4.3). -/
def Session.get_history (s : Session) (max_messages : Nat) : List ChatTurn :=
  ((s.messages.drop (s.messages.length - max_messages)).map projectTurn)

/-- Replace one ASCII character for the session-file name: characters other
than `[A-Za-z0-9_-]` (in particular `:`) become `_` (spec section 4.3). -/
def sanitizeChar (c : Char) : Char :=
  if c.isAlphanum || c = '-' || c = '_' then c else '_'

/-- Modelled from the spec: file-name sanitisation of a session key. -/
def sanitizeKey (k : String) : String :=
  String.mk (k.data.map sanitizeChar)

/-- Look up an association list by exact key. -/
def assocFind {α : Type} (k : String) : List (String × α) → Option α
  | [] => none
  | (k', v) :: rest => if k' = k then some v else assocFind k rest

/-- Insert-or-replace in an association list. -/
def assocUpdate {α : Type} (k : String) (v : α) :
    List (String × α) → List (String × α)
  | [] => [(k, v)]
  | (k', v') :: rest =>
    if k' = k then (k, v) :: rest else (k', v') :: assocUpdate k v rest

/-- Modelled from the spec: `SessionManager` state, a file store keyed by
sanitised file name plus an in-memory cache keyed by session key (spec
section 4.3). -/
structure SessionManager where
  files : List (String × Session) := []
  cache : List (String × Session) := []
deriving Repr, DecidableEq

/-- Modelled from the spec: `save` writes the session JSON under the
sanitised key and refreshes the cache entry (spec section 4.3).  The
stored record keeps the own `key` field of the session verbatim. -/
def SessionManager.save (m : SessionManager) (s : Session) : SessionManager :=
  { files := assocUpdate (sanitizeKey s.key) s m.files,
    cache := assocUpdate s.key s m.cache }

/-- A fresh empty session created at time `now`. -/
def freshSession (key : String) (now : Nat) : Session :=
  { key := key, created_at := now, updated_at := now }

/-- Modelled from the spec: `get_or_create` consults the cache, then the
file store under the sanitised key (the stored `key` inside the JSON is
authoritative), and otherwise returns a fresh cached session (spec
section 4.3). -/
def SessionManager.get_or_create (m : SessionManager) (key : String) (now : Nat) :
    Session × SessionManager :=
  match assocFind key m.cache with
  | some s => (s, m)
  | none =>
    match assocFind (sanitizeKey key) m.files with
    | some s => (s, { m with cache := assocUpdate key s m.cache })
    | none =>
      let s := freshSession key now
      (s, { m with cache := assocUpdate key s m.cache })

/-- A manager over the same on-disk state but with an empty (cold) cache:
models constructing a new `SessionManager` over the same workspace. -/
def SessionManager.coldCache (m : SessionManager) : SessionManager :=
  { m with cache := [] }

/-- One row of `list_sessions` output. -/
structure SessionEntry where
  key : String
  updated_at : Nat
  message_count : Nat
deriving Repr, DecidableEq

/-- Modelled from the spec: `list_sessions` reads every stored session file
and reports the authoritative `key` recorded inside it, together with
`updated_at` and the message count (spec section 4.3). -/
def SessionManager.list_sessions (m : SessionManager) : List SessionEntry :=
  m.files.map fun f =>
    { key := f.2.key, updated_at := f.2.updated_at,
      message_count := f.2.messages.length }

theorem assocFind_assocUpdate_self {α : Type} (k : String) (v : α)
    (l : List (String × α)) : assocFind k (assocUpdate k v l) = some v := by
  induction l with
  | nil => simp [assocUpdate, assocFind]
  | cons p rest ih =>
    obtain ⟨k', v'⟩ := p
    by_cases h : k' = k
    · simp [assocUpdate, h, assocFind]
    · simp [assocUpdate, h, assocFind, ih]

theorem mem_assocUpdate_self {α : Type} (k : String) (v : α)
    (l : List (String × α)) : (k, v) ∈ assocUpdate k v l := by
  induction l with
  | nil => simp [assocUpdate]
  | cons p rest ih =>
    obtain ⟨k', v'⟩ := p
    by_cases h : k' = k
    · simp [assocUpdate, h]
    · simp [assocUpdate, h]
      right; exact ih

/-- Claim C2: saving a session and then loading it by its key through a
manager with a cold cache yields a session with the same `messages` and an
`updated_at` at least the original one. -/
theorem claim_C2_session_round_trip (m : Nanobot.SessionManager)
    (s : Nanobot.Session) (now : Nat) :
    ((((m.save s).coldCache).get_or_create s.key now).1).messages = s.messages
    ∧ s.updated_at ≤ ((((m.save s).coldCache).get_or_create s.key now).1).updated_at := by
  have hload : (((m.save s).coldCache).get_or_create s.key now).1 = s := by
    simp [Nanobot.SessionManager.get_or_create, Nanobot.SessionManager.coldCache,
      Nanobot.SessionManager.save, Nanobot.assocFind,
      Nanobot.assocFind_assocUpdate_self]
  rw [hload]
  exact ⟨rfl, le_refl _⟩

/-- Claim C7: the key stored inside the session record is authoritative:
after `save`, loading through a cold cache returns the original key
unchanged, and `list_sessions` reports the original key — even though the
file name is sanitised (characters outside `[A-Za-z0-9_-]`, including `:`,
become `_`). -/
theorem claim_C7_stored_key_authoritative (m : Nanobot.SessionManager)
    (s : Nanobot.Session) (now : Nat) :
    ((((m.save s).coldCache).get_or_create s.key now).1).key = s.key
    ∧ s.key ∈ ((m.save s).list_sessions).map Nanobot.SessionEntry.key := by
  constructor
  · have hload : (((m.save s).coldCache).get_or_create s.key now).1 = s := by
      simp [Nanobot.SessionManager.get_or_create, Nanobot.SessionManager.coldCache,
        Nanobot.SessionManager.save, Nanobot.assocFind,
        Nanobot.assocFind_assocUpdate_self]
    rw [hload]
  · have hmem := Nanobot.mem_assocUpdate_self (Nanobot.sanitizeKey s.key) s m.files
    simp only [Nanobot.SessionManager.list_sessions, Nanobot.SessionManager.save,
      List.map_map, List.mem_map]
    exact ⟨(Nanobot.sanitizeKey s.key, s), hmem, rfl⟩

/-- Claim C3: `get_history n` returns exactly the last `min n length` stored
turns, in their original order, each projected onto the model-contract
keys; every key of every returned turn is a model-contract key (so
`timestamp` and producer extras are stripped), and every model-contract
pair of a kept turn is retained. -/
theorem claim_C3_get_history_contract (s : Nanobot.Session) (n : Nat) :
    (s.get_history n).length = min n s.messages.length
    ∧ s.get_history n
        = (s.messages.drop (s.messages.length - n)).map Nanobot.projectTurn
    ∧ (∀ t ∈ s.get_history n, ∀ kv ∈ t, kv.1 ∈ Nanobot.modelContractKeys)
    ∧ (∀ t ∈ s.get_history n, ∀ kv ∈ t, kv.1 ≠ "timestamp")
    ∧ (∀ t ∈ s.messages.drop (s.messages.length - n), ∀ kv ∈ t,
        kv.1 ∈ Nanobot.modelContractKeys → kv ∈ Nanobot.projectTurn t) := by
  refine ⟨?_, rfl, ?_, ?_, ?_⟩
  · simp [Nanobot.Session.get_history]
    omega
  · intro t ht kv hkv
    simp only [Nanobot.Session.get_history, List.mem_map] at ht
    obtain ⟨t', _, rfl⟩ := ht
    simp only [Nanobot.projectTurn, List.mem_filter, decide_eq_true_eq] at hkv
    exact hkv.2
  · intro t ht kv hkv
    simp only [Nanobot.Session.get_history, List.mem_map] at ht
    obtain ⟨t', _, rfl⟩ := ht
    simp only [Nanobot.projectTurn, List.mem_filter, decide_eq_true_eq] at hkv
    have hmem := hkv.2
    intro hts
    rw [hts] at hmem
    simp [Nanobot.modelContractKeys] at hmem
  · intro t _ kv hkv hmem
    simp only [Nanobot.projectTurn, List.mem_filter, decide_eq_true_eq]
    exact ⟨hkv, hmem⟩

/-- Claim C1: publishing any sequence of messages on a fresh `MessageBus` via
`publish_inbound` and then consuming them with `consume_inbound` returns
exactly that sequence in publish order (strict FIFO), and afterwards
`inbound_size` is `0`. -/
theorem claim_C1_bus_fifo (msgs : List Nanobot.InboundMessage) :
    (Nanobot.MessageBus.empty.publishAll msgs).consumeAll msgs.length
      = (msgs, Nanobot.MessageBus.empty)
    ∧ ((Nanobot.MessageBus.empty.publishAll msgs).consumeAll msgs.length).2.inbound_size
      = 0 := by
  have h : (Nanobot.MessageBus.empty.publishAll msgs).inbound = msgs := by
    rw [Nanobot.MessageBus.inbound_publishAll]; rfl
  have h2 := Nanobot.MessageBus.consumeAll_of_inbound _ msgs h
  constructor
  · rw [h2]
    have : Nanobot.MessageBus.empty.publishAll msgs
        = { Nanobot.MessageBus.empty.publishAll msgs with inbound := msgs } := by
      cases hb : Nanobot.MessageBus.empty.publishAll msgs
      simp at h ⊢
      rw [hb] at h; exact h
    have hout : (Nanobot.MessageBus.empty.publishAll msgs).outbound = [] := by
      have : ∀ (b : Nanobot.MessageBus) (ms : List Nanobot.InboundMessage),
          (b.publishAll ms).outbound = b.outbound := by
        intro b ms
        induction ms generalizing b with
        | nil => rfl
        | cons m rest ih =>
          show ((b.publish_inbound m).publishAll rest).outbound = b.outbound
          rw [ih]; rfl
      exact this _ _
    simp [Nanobot.MessageBus.empty]
    exact hout
  · rw [h2]; rfl

/-- Claim C10: an `OutboundMessage` constructed without an explicit
`reply_to` argument has `reply_to = none`; supplying `reply_to` stores it
verbatim. -/
theorem claim_C10_outbound_reply_to (ch cid c : String) :
    (({ channel := ch, chat_id := cid, content := c } : Nanobot.OutboundMessage).reply_to
        = none)
    ∧ ∀ r : String,
        (({ channel := ch, chat_id := cid, content := c,
            reply_to := some r } : Nanobot.OutboundMessage).reply_to = some r) :=
  ⟨rfl, fun _ => rfl⟩

/-! ### String containment -/

/-- Containment: `strContains h n` holds when `n` occurs as a contiguous
substring of `h` (on the character data). -/
def strContains (h n : String) : Prop := n.data <:+: h.data

instance (h n : String) : Decidable (strContains h n) :=
  List.decidableInfix n.data h.data

theorem strContains_of_data (h n : String) (pre post : List Char)
    (he : pre ++ n.data ++ post = h.data) : strContains h n := ⟨pre, post, he⟩

/-! ### Tool registry -/

/-- Modelled from the spec: a `Tool` value with a name, description,
required-parameter list and a total string-returning `execute` contract
(spec sections 3 and 4.7); the tool implementations themselves live in the
compiled extension, absent from src/.  Arguments are modelled as an
association list of strings. -/
structure Tool where
  name : String
  description : String
  requiredParams : List String
  execute : List (String × String) → String

/-- Modelled from the spec: the `ToolRegistry` owns tool instances keyed by
name (spec section 4.7). -/
structure ToolRegistry where
  tools : List Tool := []

/-- A freshly constructed, empty registry. -/
def ToolRegistry.empty : ToolRegistry := {}

/-- Whether a tool of the given name is registered. -/
def ToolRegistry.has (r : ToolRegistry) (name : String) : Bool :=
  r.tools.any fun t => t.name == name

/-- Modelled from the spec: `execute` dispatches by name; an unknown tool
returns an error string rather than raising (spec section 4.7).  The model
is a total function, so no exception can cross the registry boundary. -/
def ToolRegistry.execute (r : ToolRegistry) (name : String)
    (args : List (String × String)) : String :=
  match r.tools.find? (fun t => t.name == name) with
  | none => "Error: Tool " ++ name ++ " not found"
  | some t => t.execute args

/-- Claim C4: for every unregistered tool name and every argument mapping,
`ToolRegistry.execute` returns a string containing both `"Error"` and
`"not found"`; being a total function of the model, it cannot raise. -/
theorem claim_C4_unknown_tool (r : Nanobot.ToolRegistry) (name : String)
    (args : List (String × String)) (h : r.has name = false) :
    Nanobot.strContains (r.execute name args) "Error"
    ∧ Nanobot.strContains (r.execute name args) "not found" := by
  have hfind : r.tools.find? (fun t => t.name == name) = none := by
    rw [List.find?_eq_none]
    intro t ht
    have hall := List.any_eq_false.mp h t ht
    simpa using hall
  have hmsg : r.execute name args = "Error: Tool " ++ name ++ " not found" := by
    unfold Nanobot.ToolRegistry.execute
    rw [hfind]
  rw [hmsg]
  constructor
  · apply Nanobot.strContains_of_data _ _ []
      (": Tool ".data ++ name.data ++ " not found".data)
    have hsplit : ("Error: Tool " : String).data
        = ("Error" : String).data ++ (": Tool " : String).data := by decide
    simp [String.data_append, hsplit]
  · apply Nanobot.strContains_of_data _ _
      (("Error: Tool " : String).data ++ name.data ++ (" " : String).data) []
    have hsplit : (" not found" : String).data
        = (" " : String).data ++ ("not found" : String).data := by decide
    simp [String.data_append, hsplit]

/-- Witness for claim C4 at a concrete input: executing `"nonexistent"`
with empty arguments on an empty registry. -/
theorem claim_C4_unknown_tool_witness :
    (Nanobot.ToolRegistry.empty.has "nonexistent" = false)
    ∧ (Nanobot.strContains
          (Nanobot.ToolRegistry.empty.execute "nonexistent" []) "Error"
       ∧ Nanobot.strContains
          (Nanobot.ToolRegistry.empty.execute "nonexistent" []) "not found") :=
  ⟨rfl, Nanobot.claim_C4_unknown_tool Nanobot.ToolRegistry.empty "nonexistent" [] rfl⟩

/-! ### File-system tools: edit_file -/

/-- One left-to-right scan over `text` that simultaneously counts the
non-overlapping occurrences of `pat` and replaces each with `rep` (the
semantics of counting occurrences and replacing them all, spec section
4.7).  `fuel` is a structural-recursion bound; every step consumes at
least one character, so `fuel = text.length` suffices. -/
def scanRep (pat rep : List Char) : Nat → List Char → Nat × List Char
  | 0, text => (0, text)
  | _ + 1, [] => (0, [])
  | fuel + 1, c :: rest =>
    if pat ≠ [] ∧ pat <+: (c :: rest) then
      let r := scanRep pat rep fuel (rest.drop (pat.length - 1))
      (r.1 + 1, rep ++ r.2)
    else
      let r := scanRep pat rep fuel rest
      (r.1, c :: r.2)

/-- Occurrence count of `old` in `text` together with the text after
replacing every occurrence by `new`. -/
def replaceInfo (old new text : List Char) : Nat × List Char :=
  scanRep old new text.length text

/-- The in-memory model of a directory of files: path to contents. -/
abbrev FileSys := List (String × String)

/-- Modelled from the spec: `edit_file(path, old_text, new_text)` (spec
section 4.7).  Missing file errors; zero occurrences errors with
`old_text not found` and leaves the store untouched; one occurrence
replaces and reports success; `k > 1` occurrences replaces all and returns
a warning naming `k`. -/
def edit_file (fs : FileSys) (path old_text new_text : String) :
    FileSys × String :=
  match assocFind path fs with
  | none => (fs, "Error: File not found: " ++ path)
  | some content =>
    let r := replaceInfo old_text.data new_text.data content.data
    if r.1 = 0 then
      (fs, "Error: old_text not found in " ++ path)
    else if r.1 = 1 then
      (assocUpdate path (String.mk r.2) fs, "Successfully edited " ++ path)
    else
      (assocUpdate path (String.mk r.2) fs,
        "Warning: old_text found " ++ Nat.repr r.1
          ++ " times, replaced all occurrences in " ++ path)

theorem scanRep_of_no_match (pat rep : List Char) (fuel : Nat)
    (text : List Char) (h : ¬ pat <:+: text) :
    scanRep pat rep fuel text = (0, text) := by
  induction fuel generalizing text with
  | zero => rfl
  | succ fuel ih =>
    cases text with
    | nil => rfl
    | cons c rest =>
      have hnp : ¬ (pat ≠ [] ∧ pat <+: (c :: rest)) := by
        rintro ⟨-, hpre⟩
        exact h hpre.isInfix
      rw [scanRep, if_neg hnp]
      have hrest : ¬ pat <:+: rest := fun hx => h (List.infix_cons hx)
      rw [ih rest hrest]

/-- Claim C6: editing an existing file whose contents do not contain
`old_text` leaves the file store completely unchanged and returns an error
string containing `"not found"` — specifically containing
`"Error: old_text not found"`. -/
theorem claim_C6_edit_absent (fs : Nanobot.FileSys) (path old new content : String)
    (hfile : Nanobot.assocFind path fs = some content)
    (habsent : ¬ Nanobot.strContains content old) :
    (Nanobot.edit_file fs path old new).1 = fs
    ∧ Nanobot.strContains (Nanobot.edit_file fs path old new).2 "not found"
    ∧ Nanobot.strContains (Nanobot.edit_file fs path old new).2
        "Error: old_text not found" := by
  have hzero : Nanobot.replaceInfo old.data new.data content.data
      = (0, content.data) :=
    Nanobot.scanRep_of_no_match _ _ _ _ habsent
  have hres : Nanobot.edit_file fs path old new
      = (fs, "Error: old_text not found in " ++ path) := by
    unfold Nanobot.edit_file
    rw [hfile]
    simp [hzero]
  rw [hres]
  refine ⟨rfl, ?_, ?_⟩
  · apply Nanobot.strContains_of_data _ _ ("Error: old_text ".data)
      (" in ".data ++ path.data)
    have hsplit : ("Error: old_text not found in " : String).data
        = ("Error: old_text " : String).data ++ ("not found" : String).data
          ++ (" in " : String).data := by decide
    simp [String.data_append, hsplit]
  · apply Nanobot.strContains_of_data _ _ []
      (" in ".data ++ path.data)
    have hsplit : ("Error: old_text not found in " : String).data
        = ("Error: old_text not found" : String).data
          ++ (" in " : String).data := by decide
    simp [String.data_append, hsplit]

/-- Witness for claim C6 at a concrete input: a file `"a.txt"` holding
`"Hello, World!"` edited with an absent `old_text`. -/
theorem claim_C6_edit_absent_witness :
    (Nanobot.assocFind "a.txt" [("a.txt", "Hello, World!")]
        = some "Hello, World!")
    ∧ ¬ Nanobot.strContains "Hello, World!" "NotFound"
    ∧ ((Nanobot.edit_file [("a.txt", "Hello, World!")] "a.txt" "NotFound" "X").1
          = [("a.txt", "Hello, World!")]
       ∧ Nanobot.strContains
          (Nanobot.edit_file [("a.txt", "Hello, World!")] "a.txt" "NotFound" "X").2
          "not found"
       ∧ Nanobot.strContains
          (Nanobot.edit_file [("a.txt", "Hello, World!")] "a.txt" "NotFound" "X").2
          "Error: old_text not found") :=
  ⟨by decide, by decide,
    Nanobot.claim_C6_edit_absent [("a.txt", "Hello, World!")] "a.txt"
      "NotFound" "X" "Hello, World!" (by decide) (by decide)⟩

/-- Claim C5: editing an existing file whose contents contain `old_text`
exactly `k > 1` times replaces all `k` occurrences (the stored file
becomes the full left-to-right replacement of every occurrence) and
returns a message containing both `"Warning"` and `"<k> times"`. -/
theorem claim_C5_edit_multiple (fs : Nanobot.FileSys)
    (path old new content : String) (k : Nat)
    (hfile : Nanobot.assocFind path fs = some content)
    (hk : (Nanobot.replaceInfo old.data new.data content.data).1 = k)
    (h2 : 2 ≤ k) :
    Nanobot.assocFind path (Nanobot.edit_file fs path old new).1
      = some (String.mk (Nanobot.replaceInfo old.data new.data content.data).2)
    ∧ Nanobot.strContains (Nanobot.edit_file fs path old new).2 "Warning"
    ∧ Nanobot.strContains (Nanobot.edit_file fs path old new).2
        (Nat.repr k ++ " times") := by
  have hk0 : (Nanobot.replaceInfo old.data new.data content.data).1 ≠ 0 := by
    omega
  have hk1 : (Nanobot.replaceInfo old.data new.data content.data).1 ≠ 1 := by
    omega
  have hres : Nanobot.edit_file fs path old new
      = (Nanobot.assocUpdate path
          (String.mk (Nanobot.replaceInfo old.data new.data content.data).2) fs,
        "Warning: old_text found "
          ++ Nat.repr (Nanobot.replaceInfo old.data new.data content.data).1
          ++ " times, replaced all occurrences in " ++ path) := by
    unfold Nanobot.edit_file
    rw [hfile]
    simp only [if_neg hk0, if_neg hk1]
  rw [hres, hk]
  refine ⟨Nanobot.assocFind_assocUpdate_self _ _ _, ?_, ?_⟩
  · apply Nanobot.strContains_of_data _ _ []
      ((": old_text found " : String).data ++ (Nat.repr k).data
        ++ (" times, replaced all occurrences in " : String).data ++ path.data)
    have hsplit : ("Warning: old_text found " : String).data
        = ("Warning" : String).data ++ (": old_text found " : String).data := by
      decide
    simp [String.data_append, hsplit]
  · apply Nanobot.strContains_of_data _ _
      (("Warning: old_text found " : String).data)
      ((", replaced all occurrences in " : String).data ++ path.data)
    have hsplit : (" times, replaced all occurrences in " : String).data
        = (" times" : String).data
          ++ (", replaced all occurrences in " : String).data := by decide
    simp [String.data_append, hsplit]

/-- Witness for claim C5 at the concrete input of the spec: contents
`"foo bar foo"` edited with `("foo", "baz")` become `"baz bar baz"` and the
message names `"2 times"`. -/
theorem claim_C5_edit_multiple_witness :
    (Nanobot.assocFind "f.txt" [("f.txt", "foo bar foo")] = some "foo bar foo")
    ∧ ((Nanobot.replaceInfo "foo".data "baz".data "foo bar foo".data).1 = 2)
    ∧ 2 ≤ 2
    ∧ String.mk (Nanobot.replaceInfo "foo".data "baz".data "foo bar foo".data).2
        = "baz bar baz"
    ∧ (Nanobot.assocFind "f.txt"
          (Nanobot.edit_file [("f.txt", "foo bar foo")] "f.txt" "foo" "baz").1
        = some (String.mk
            (Nanobot.replaceInfo "foo".data "baz".data "foo bar foo".data).2)
       ∧ Nanobot.strContains
          (Nanobot.edit_file [("f.txt", "foo bar foo")] "f.txt" "foo" "baz").2
          "Warning"
       ∧ Nanobot.strContains
          (Nanobot.edit_file [("f.txt", "foo bar foo")] "f.txt" "foo" "baz").2
          (Nat.repr 2 ++ " times")) :=
  ⟨by decide, by decide, by decide, by decide,
    Nanobot.claim_C5_edit_multiple [("f.txt", "foo bar foo")] "f.txt"
      "foo" "baz" "foo bar foo" 2 (by decide) (by decide) (by decide)⟩

/-! ### Memory store: listing -/

/-- Modelled from the spec: whether a file name matches
`^\d{4}-\d{2}-\d{2}\.md$` (spec section 4.4). -/
def isDateFile (s : String) : Bool :=
  match s.data with
  | [y1, y2, y3, y4, h1, m1, m2, h2, d1, d2, dot, c1, c2] =>
    y1.isDigit && y2.isDigit && y3.isDigit && y4.isDigit && h1 == '-'
      && m1.isDigit && m2.isDigit && h2 == '-' && d1.isDigit && d2.isDigit
      && dot == '.' && c1 == 'm' && c2 == 'd'
  | _ => false

instance : DecidableRel (fun a b : String => b ≤ a) :=
  fun a b => inferInstanceAs (Decidable (b ≤ a))

instance : IsTotal String (fun a b : String => b ≤ a) :=
  ⟨fun a b => le_total b a⟩

instance : IsTrans String (fun a b : String => b ≤ a) :=
  ⟨fun _ _ _ h1 h2 => le_trans h2 h1⟩

/-- Modelled from the spec: `list_memory_files` over the files of the
`memory/` directory (name, contents) filters to date-named files and sorts
lexically descending, newest first (spec section 4.4). -/
def list_memory_files (files : List (String × String)) : List String :=
  List.insertionSort (fun a b : String => b ≤ a)
    ((files.map Prod.fst).filter isDateFile)

/-- Claim C8: `list_memory_files` returns exactly the files whose names
match `^\d{4}-\d{2}-\d{2}\.md$` (each dated file exactly as often as it
occurs; other names like `MEMORY.md` or `notes.txt` excluded), sorted
lexically descending, i.e. newest date first. -/
theorem claim_C8_list_memory_files (files : List (String × String)) :
    (Nanobot.list_memory_files files).Perm
        ((files.map Prod.fst).filter Nanobot.isDateFile)
    ∧ (Nanobot.list_memory_files files).Sorted (fun a b : String => b ≤ a)
    ∧ (∀ f, f ∈ Nanobot.list_memory_files files
        ↔ f ∈ files.map Prod.fst ∧ Nanobot.isDateFile f = true)
    ∧ Nanobot.isDateFile "2024-01-01.md" = true
    ∧ Nanobot.isDateFile "MEMORY.md" = false
    ∧ Nanobot.isDateFile "notes.txt" = false := by
  refine ⟨List.perm_insertionSort _ _, List.sorted_insertionSort _ _, ?_,
    by decide, by decide, by decide⟩
  intro f
  unfold Nanobot.list_memory_files
  rw [(List.perm_insertionSort (fun a b : String => b ≤ a)
    ((files.map Prod.fst).filter Nanobot.isDateFile)).mem_iff]
  simp [List.mem_filter]

/-! ### Memory search -/

/-- Tokeniser worker: walks the characters, accumulating the current
alphanumeric run (reversed) in `cur`, lowercasing as it goes; a
non-alphanumeric character closes the current token. -/
def tokenizeAux : List Char → List Char → List String
  | cur, [] => if cur.isEmpty then [] else [String.mk cur.reverse]
  | cur, c :: rest =>
    if c.isAlphanum then tokenizeAux (c.toLower :: cur) rest
    else if cur.isEmpty then tokenizeAux [] rest
    else String.mk cur.reverse :: tokenizeAux [] rest

/-- Modelled from the spec: tokenise by lowercasing and splitting on
non-alphanumeric boundaries (spec section 4.4). -/
def tokenize (s : String) : List String :=
  tokenizeAux [] s.data

/-- Term frequency of a token in the token list of a document. -/
def tf (tok content : String) : Nat :=
  (tokenize content).count tok

/-- Document frequency of a token over the indexed files. -/
def df (tok : String) (files : List (String × String)) : Nat :=
  (files.filter fun f => (tokenize f.2).contains tok).length

/-- Modelled from the spec: score of a document for a query — the sum over
query tokens of `term_frequency * log(1 + N / df)`, with `N` the number of
indexed files (spec section 4.4).  Real-valued; a token occurring in no
file contributes `0` (division by zero is zero, so the log factor is
`log 1 = 0`). -/
noncomputable def scoreOf (files : List (String × String))
    (query content : String) : ℝ :=
  ((tokenize query).map fun t =>
    (tf t content : ℝ)
      * Real.log (1 + (files.length : ℝ) / (df t files : ℝ))).sum

/-- Index of the first occurrence of `pat` in a character list. -/
def findSub (pat : List Char) : List Char → Option Nat
  | [] => if pat.isEmpty then some 0 else none
  | c :: rest =>
    if pat <+: (c :: rest) then some 0
    else (findSub pat rest).map (· + 1)

/-- Lowercased character data of a document, for case-insensitive token
location. -/
def lowerData (s : String) : List Char :=
  s.data.map Char.toLower

/-- Position of the first matched query-token occurrence in the document
(`0` when no token matches). -/
def firstMatchPos (query content : String) : Nat :=
  (((tokenize query).filterMap fun t =>
      findSub t.data (lowerData content)).min?).getD 0

/-- A snippet of at most 200 characters centred on position `pos`. -/
def snippetAt (content : String) (pos : Nat) : String :=
  String.mk ((content.data.drop (pos - 100)).take 200)

/-- One `search_memory` result row. -/
structure SearchResult where
  file : String
  snippet : String
  score : ℝ

noncomputable instance decRelSearch :
    DecidableRel (fun a b : Nanobot.SearchResult => b.score ≤ a.score) :=
  fun _ _ => Classical.propDecidable _

instance : IsTotal Nanobot.SearchResult
    (fun a b : Nanobot.SearchResult => b.score ≤ a.score) :=
  ⟨fun a b => le_total b.score a.score⟩

instance : IsTrans Nanobot.SearchResult
    (fun a b : Nanobot.SearchResult => b.score ≤ a.score) :=
  ⟨fun _ _ _ h1 h2 => le_trans h2 h1⟩

noncomputable instance decScorePos (r : Nanobot.SearchResult) :
    Decidable (0 < r.score) :=
  Classical.propDecidable _

/-- Modelled from the spec: `search_memory(workspace, query, max_results)`
(spec section 4.4) over the indexed files (name, contents): score every
file, keep those with positive score, order by descending score, return at
most `max_results` rows, each with a ≤200-character snippet centred on the
first matched token occurrence. -/
noncomputable def search_memory (files : List (String × String))
    (query : String) (max_results : Nat) : List SearchResult :=
  let scored := files.map fun f =>
    ({ file := f.1, snippet := snippetAt f.2 (firstMatchPos query f.2),
       score := scoreOf files query f.2 } : SearchResult)
  let positive := scored.filter fun r => decide (0 < r.score)
  (List.insertionSort (fun a b : SearchResult => b.score ≤ a.score)
    positive).take max_results

/-- Claim C9: `search_memory` returns at most `max_results` results ordered
by descending score; every result row names an indexed file, carries
exactly the score `Σ_t tf(t) * log(1 + N/df(t))` of the spec over the lowercase
lowercase alphanumeric tokens, and a snippet of at most 200 characters
centred on the first matched token occurrence. -/
theorem claim_C9_search_memory (files : List (String × String))
    (query : String) (max_results : Nat) :
    (Nanobot.search_memory files query max_results).length ≤ max_results
    ∧ ((Nanobot.search_memory files query max_results).map
        Nanobot.SearchResult.score).Sorted (fun a b : ℝ => b ≤ a)
    ∧ (∀ r ∈ Nanobot.search_memory files query max_results,
        ∃ content, (r.file, content) ∈ files
          ∧ r.score = ((Nanobot.tokenize query).map fun t =>
              (Nanobot.tf t content : ℝ)
                * Real.log (1 + (files.length : ℝ)
                    / (Nanobot.df t files : ℝ))).sum
          ∧ r.snippet
              = Nanobot.snippetAt content (Nanobot.firstMatchPos query content)
          ∧ r.snippet.length ≤ 200
          ∧ 0 < r.score) := by
  refine ⟨?_, ?_, ?_⟩
  · exact List.length_take_le _ _
  · have hsorted : (List.insertionSort
        (fun a b : Nanobot.SearchResult => b.score ≤ a.score)
        ((files.map fun f =>
          ({ file := f.1,
             snippet := Nanobot.snippetAt f.2 (Nanobot.firstMatchPos query f.2),
             score := Nanobot.scoreOf files query f.2 } : Nanobot.SearchResult)).filter
          fun r => decide (0 < r.score))).Sorted
        (fun a b : Nanobot.SearchResult => b.score ≤ a.score) :=
      List.sorted_insertionSort _ _
    have htake := hsorted.sublist (List.take_sublist max_results _)
    exact htake.map _ (fun a b h => h)
  · intro r hr
    have hr1 : r ∈ List.insertionSort
        (fun a b : Nanobot.SearchResult => b.score ≤ a.score)
        ((files.map fun f =>
          ({ file := f.1,
             snippet := Nanobot.snippetAt f.2 (Nanobot.firstMatchPos query f.2),
             score := Nanobot.scoreOf files query f.2 } : Nanobot.SearchResult)).filter
          fun r => decide (0 < r.score)) :=
      List.take_subset _ _ hr
    rw [(List.perm_insertionSort _ _).mem_iff] at hr1
    have hr2 := List.mem_filter.mp hr1
    obtain ⟨hmem, hpos⟩ := hr2
    obtain ⟨f, hf, rfl⟩ := List.mem_map.mp hmem
    refine ⟨f.2, ?_, rfl, rfl, ?_, of_decide_eq_true hpos⟩
    · simpa using hf
    · show (Nanobot.snippetAt f.2 (Nanobot.firstMatchPos query f.2)).length ≤ 200
      unfold Nanobot.snippetAt
      rw [String.length_mk]
      exact List.length_take_le _ _

end Nanobot
